import Mathlib

/-!
Shallow embedding of the console synchronization and input/output pipeline of
`src/StanfordCPPLib/graphics/gconsolewindow.cpp` (class `GConsoleWindow`),
together with theorems checking the specification's claims about it.

Strings are modelled as `List Char`.  The visible text surface is modelled by
two components: `transcript` is all committed text of the document, and the
pending user-input fragment is exactly `inputBuffer`; the text shown on screen
is `transcript ++ inputBuffer`.  `cursorOffset` is the text cursor's position
relative to the start of the user-input region (`frag.position()` when the
fragment is valid, i.e. when the buffer is non-empty, and the end of the text
otherwise), as used by `isCursorInUserInputArea`, `processBackspace` and
`processUserInputKey`.  The underlying text surface's append primitive
(`GTextArea::appendFormattedText`) inserts at the end of the document and
leaves the cursor there, and `QTextCursor::insertText` leaves the cursor right
after the inserted text; the cursor updates below reflect that.

The process-level standard streams that `printf`/`fprintf`/`fflush` write to
are modelled by the append-only fields `stdoutText` and `stderrText`; the
`eofbit` of `std::cin` set by `processEof` is the sticky flag `eofFlag`.
-/

/-- The C `isprint` check used by `processUserInputKey`: printable ASCII,
`0x20` (space) through `0x7E` (tilde). -/
def isprint (c : Char) : Bool := 32 ≤ c.toNat && c.toNat ≤ 126

/-- `GConsoleWindow::ALLOW_RICH_INPUT_EDITING` (gconsolewindow.cpp line 47). -/
def ALLOW_RICH_INPUT_EDITING : Bool := true

/-- The marker line of `GConsoleWindow::clearConsole` (line 286). -/
def CONSOLE_CLEARED_TEXT : List Char :=
  "==================== (console cleared) ====================".data

/-- `PROGRAM_COMPLETED_TITLE_SUFFIX` of `GConsoleWindow::shutdown` (line 1323). -/
def PROGRAM_COMPLETED_TITLE_SUFFIX : List Char := " [completed]".data

/-- `GConsoleWindow::DEFAULT_WINDOW_TITLE` (line 53). -/
def DEFAULT_WINDOW_TITLE : List Char := "Console".data

/-- Fuel-indexed scanner behind `replaceAll`.  At each position it checks
whether the pattern starts there; on a match it emits the replacement and
resumes after the matched occurrence (the replacement text itself is not
re-scanned), otherwise it keeps the character and moves one position right.
This is exactly the effect of the `find`/`replace`/`index += replacement
length` loop of `stringReplaceInPlace` (strlib).  One unit of fuel is spent
per examined position, so fuel equal to the input length never runs out. -/
def replaceAllFuel (pat rep : List Char) : Nat → List Char → List Char
  | 0, s => s
  | fuel + 1, s =>
    match s with
    | [] => []
    | c :: rest =>
      if pat.isPrefixOf (c :: rest) then
        rep ++ replaceAllFuel pat rep fuel ((c :: rest).drop pat.length)
      else
        c :: replaceAllFuel pat rep fuel rest

/-- Model of `stringReplaceInPlace(str, old, new)` from the Stanford string
library: replace every (leftmost, non-overlapping) occurrence of `pat` in `s`
by `rep`. -/
def replaceAll (pat rep s : List Char) : List Char :=
  if pat.isEmpty then s else replaceAllFuel pat rep s.length s

/-- The line-break cleanup of `GConsoleWindow::print` (lines 614-617):
first `stringReplaceInPlace(strToPrint, "\r\n", "\n")`, then
`stringReplaceInPlace(strToPrint, "\r", "\n")`. -/
def normalizeOutput (s : List Char) : List Char :=
  replaceAll ['\r'] ['\n'] (replaceAll ['\r', '\n'] ['\n'] s)

/-- Helper characterization: the effect of replacing every `"\r\n"` by
`"\n"` in a single left-to-right pass. -/
def collapseCRLF : List Char → List Char
  | [] => []
  | [c] => [c]
  | c :: d :: rest =>
    if c = '\r' ∧ d = '\n' then '\n' :: collapseCRLF rest
    else c :: collapseCRLF (d :: rest)

/-- Helper characterization: character-wise replacement of `'\r'` by `'\n'`. -/
def replCR (c : Char) : Char := if c = '\r' then '\n' else c

/-- Specification-side normalization, written from the claim's words: every
occurrence of `"\r\n"` is collapsed to `"\n"` and every remaining `"\r"` is
replaced by `"\n"`, in one pass over the text. -/
def specNormalizeLineEndings : List Char → List Char
  | [] => []
  | c :: rest =>
    match rest with
    | [] => [replCR c]
    | d :: rest' =>
      if c = '\r' ∧ d = '\n' then '\n' :: specNormalizeLineEndings rest'
      else replCR c :: specNormalizeLineEndings (d :: rest')

/-- Model of `std::string::find(pat) != npos`: does `pat` occur somewhere in
the text? -/
def containsSub (pat : List Char) : List Char → Bool
  | [] => pat.isEmpty
  | c :: rest => pat.isPrefixOf (c :: rest) || containsSub pat rest

/-- Number of positions of the text at which `pat` occurs. -/
def countOcc (pat : List Char) : List Char → Nat
  | [] => 0
  | c :: rest => (if pat.isPrefixOf (c :: rest) then 1 else 0) + countOcc pat rest

/-- The state of one `GConsoleWindow`, restricted to the console
synchronization and input/output pipeline.  Field names follow the C++ data
members where one exists:
`shutdown` is `_shutdown`, `clearEnabled` is `_clearEnabled`, `echo` is
`_echo`, `locked` is `_locked`, `promptActive` is `_promptActive`,
`inputBuffer` is `_inputBuffer`, `inputScript` is `_inputScript` (front of the
list is the front of the queue), `inputLines` is `_inputLines`,
`inputCommandHistory` is `_inputCommandHistory`, `commandHistoryIndex` is
`_commandHistoryIndex`, `allOutputBuffer` is `_allOutputBuffer`, `title` is
the window title, and `textAreaEditable` is the text area's editable flag.
`eofFlag`, `cursorOffset`, `transcript`, `stdoutText`, `stderrText` model the
external `std::cin` eofbit, text cursor, text surface and process streams as
described in the header comment. -/
structure ConsoleState where
  shutdown : Bool
  clearEnabled : Bool
  echo : Bool
  locked : Bool
  promptActive : Bool
  eofFlag : Bool
  inputBuffer : List Char
  cursorOffset : Int
  inputScript : List (List Char)
  inputLines : List (List Char)
  inputCommandHistory : List (List Char)
  commandHistoryIndex : Int
  allOutputBuffer : List Char
  transcript : List Char
  stdoutText : List Char
  stderrText : List Char
  title : List Char
  textAreaEditable : Bool
deriving DecidableEq

/-- The state set up by the `GConsoleWindow` constructor (lines 99-119,
208-242): all flags clear except `_clearEnabled`, empty buffers and queues,
`_commandHistoryIndex` = -1, title `"Console"`. -/
def initialConsoleState : ConsoleState where
  shutdown := false
  clearEnabled := true
  echo := false
  locked := false
  promptActive := false
  eofFlag := false
  inputBuffer := []
  cursorOffset := 0
  inputScript := []
  inputLines := []
  inputCommandHistory := []
  commandHistoryIndex := -1
  allOutputBuffer := []
  transcript := []
  stdoutText := []
  stderrText := []
  title := "Console".data
  textAreaEditable := true

namespace GConsoleWindow

/-- `GConsoleWindow::isCursorInUserInputArea` (lines 482-489): the prompt is
active and the cursor lies inside the user-input region (inclusive at both
ends).  In offset form the region is `[0, |inputBuffer|]`. -/
def isCursorInUserInputArea (st : ConsoleState) : Bool :=
  st.promptActive
    && decide (0 ≤ st.cursorOffset)
    && decide (st.cursorOffset ≤ (st.inputBuffer.length : Int))

/-- `GConsoleWindow::print` (lines 600-627): no-op once shut down; when
`_echo` is set, the raw untransformed text goes to the corresponding process
stream; the text with line breaks cleaned up is appended to
`_allOutputBuffer` and to the text surface, and the view scrolls to the
end. -/
def print (st : ConsoleState) (s : List Char) (isStdErr : Bool) : ConsoleState :=
  if st.shutdown then st
  else
    let st1 :=
      if st.echo then
        if isStdErr then { st with stderrText := st.stderrText ++ s }
        else { st with stdoutText := st.stdoutText ++ s }
      else st
    let strToPrint := normalizeOutput s
    { st1 with
      allOutputBuffer := st1.allOutputBuffer ++ strToPrint
      transcript := st1.transcript ++ strToPrint
      cursorOffset := (st1.inputBuffer.length : Int) }

/-- `GConsoleWindow::println(str, isStdErr)` (lines 633-635). -/
def println (st : ConsoleState) (s : List Char) (isStdErr : Bool) : ConsoleState :=
  print st (s ++ ['\n']) isStdErr

/-- `GConsoleWindow::clearConsole` (lines 282-299): no-op once shut down.
With clearing enabled, the marker line goes through `printf` to the plain
(non-graphical) standard output and the graphical text surface is cleared;
with clearing disabled, the marker line is printed through `println`. -/
def clearConsole (st : ConsoleState) : ConsoleState :=
  if st.shutdown then st
  else if st.clearEnabled then
    { st with
      stdoutText := st.stdoutText ++ CONSOLE_CLEARED_TEXT ++ ['\n']
      transcript := [] }
  else
    println st CONSOLE_CLEARED_TEXT false

/-- `GConsoleWindow::getAllOutput` (lines 384-390). -/
def getAllOutput (st : ConsoleState) : List Char :=
  st.allOutputBuffer

/-- `GConsoleWindow::loadInputScript(filename)` (lines 584-598), given the
lines read from the file: the previous script queue is discarded and replaced
wholesale. -/
def loadInputScript (st : ConsoleState) (lines : List (List Char)) : ConsoleState :=
  { st with inputScript := lines }

/-- `GConsoleWindow::processEof` (lines 932-937): set `std::cin`'s eofbit
only when the input buffer is empty. -/
def processEof (st : ConsoleState) : ConsoleState :=
  if st.inputBuffer.isEmpty then { st with eofFlag := true } else st

/-- `GConsoleWindow::processUserInputEnterKey` (lines 939-953): no-op once
shut down; otherwise the buffer is enqueued on `_inputLines`, appended to
`_inputCommandHistory`, the history index is reset past the end, the buffer
(plus a newline) is appended to `_allOutputBuffer`, the buffer is cleared and
a newline is echoed to the text surface. -/
def processUserInputEnterKey (st : ConsoleState) : ConsoleState :=
  if st.shutdown then st
  else
    { st with
      inputLines := st.inputLines ++ [st.inputBuffer]
      inputCommandHistory := st.inputCommandHistory ++ [st.inputBuffer]
      commandHistoryIndex := (st.inputCommandHistory.length : Int) + 1
      allOutputBuffer := st.allOutputBuffer ++ st.inputBuffer ++ ['\n']
      inputBuffer := []
      transcript := st.transcript ++ st.inputBuffer ++ ['\n']
      cursorOffset := 0 }

/-- `GConsoleWindow::processUserInputKey` (lines 955-1031): no-op once shut
down and for the NUL key or a non-printable key.  With rich editing enabled
and the cursor inside the user-input region of a valid (non-empty) fragment,
the character is inserted at the cursor and the cursor moves past it;
otherwise the character is appended to the end of the buffer (and of its
on-screen fragment), leaving the cursor at the end.  (Selection removal is
not modelled: the claims about this function assume no active selection.) -/
def processUserInputKey (st : ConsoleState) (key : Char) : ConsoleState :=
  if st.shutdown then st
  else if (key != Char.ofNat 0) && isprint key then
    if ALLOW_RICH_INPUT_EDITING && isCursorInUserInputArea st
        && !st.inputBuffer.isEmpty then
      let indexToInsert := st.cursorOffset.toNat
      { st with
        inputBuffer := st.inputBuffer.insertIdx indexToInsert key
        cursorOffset := (indexToInsert : Int) + 1 }
    else
      { st with
        inputBuffer := st.inputBuffer ++ [key]
        cursorOffset := (st.inputBuffer.length : Int) + 1 }
  else st

/-- `GConsoleWindow::processBackspace` (lines 872-917): no-op once shut down,
when no prompt is active, or on an empty buffer.  With the cursor inside the
user-input fragment, the character before (Backspace) or at (Delete) the
cursor is removed, guarded against an out-of-range index; with the cursor
outside the fragment, the cursor moves to the fragment's end and the last
character is removed. -/
def processBackspace (st : ConsoleState) (isBackspace : Bool) : ConsoleState :=
  if st.shutdown || !st.promptActive then st
  else if st.inputBuffer.isEmpty then st
  else
    let len : Int := st.inputBuffer.length
    let userInputIndexMax : Int := len - (if isBackspace then 0 else 1)
    if 0 ≤ st.cursorOffset ∧ st.cursorOffset < userInputIndexMax then
      let indexToDelete : Int := st.cursorOffset - (if isBackspace then 1 else 0)
      if 0 ≤ indexToDelete ∧ indexToDelete < len then
        { st with
          inputBuffer := st.inputBuffer.eraseIdx indexToDelete.toNat
          cursorOffset :=
            if isBackspace ∨ indexToDelete = len - 1 then st.cursorOffset - 1
            else st.cursorOffset }
      else st
    else
      let indexToDelete : Int := len - 1
      if 0 ≤ indexToDelete ∧ indexToDelete < len then
        { st with
          inputBuffer := st.inputBuffer.eraseIdx indexToDelete.toNat
          cursorOffset := len - 1 }
      else st

/-- `GConsoleWindow::setUserInput` (lines 1231-1253): the on-screen user
input fragment is removed (leaving the cursor at the start of the now-empty
region) and the buffer cleared, then the given text is fed character by
character through `processUserInputKey`. -/
def setUserInput (st : ConsoleState) (userInput : List Char) : ConsoleState :=
  let st1 :=
    if st.inputBuffer.isEmpty then { st with inputBuffer := [] }
    else { st with inputBuffer := [], cursorOffset := 0 }
  userInput.foldl processUserInputKey st1

/-- `GConsoleWindow::processCommandHistory` (lines 919-930): the history
index moves by `delta`, clamped to `[-1, |history|]`; the recalled command
(empty at either boundary) replaces the user input via `setUserInput`. -/
def processCommandHistory (st : ConsoleState) (delta : Int) : ConsoleState :=
  let idx := st.commandHistoryIndex + delta
  let idx := max (-1) idx
  let idx := min idx (st.inputCommandHistory.length : Int)
  let oldCommand :=
    if 0 ≤ idx ∧ idx < (st.inputCommandHistory.length : Int) then
      st.inputCommandHistory.getD idx.toNat []
    else []
  setUserInput { st with commandHistoryIndex := idx } oldCommand

/-- Epilogue of `GConsoleWindow::readLine` (lines 1084-1092): the prompt is
deactivated and, with `_echo` set, the line is echoed raw (plus a newline)
to the process standard output. -/
def readLineFinish (st : ConsoleState) (line : List Char) :
    Option (List Char) × ConsoleState :=
  let st1 := { st with promptActive := false }
  let st2 :=
    if st1.echo then { st1 with stdoutText := st1.stdoutText ++ line ++ ['\n'] }
    else st1
  (some line, st2)

/-- `GConsoleWindow::readLine` (lines 1033-1093).  Returns `none` when the
poll loop would block forever in the absence of further concurrent activity
(no line available, no shutdown, no end of file): each loop iteration either
dequeues a line or sleeps and observes the same state again.  One iteration:
if the script queue is non-empty its front line is dequeued and echoed (as if
typed) to the text surface and `_allOutputBuffer`; then — without checking
whether a line was already read — if `_inputLines` is non-empty its front
line is dequeued, overwriting `line`.  The loop is not entered at all once
shut down or when the eofbit is set, returning the empty line. -/
def readLine (st : ConsoleState) : Option (List Char) × ConsoleState :=
  if st.shutdown then (some [], st)
  else
    let st1 := { st with
      cursorOffset := (st.inputBuffer.length : Int)
      promptActive := true }
    if st1.eofFlag then readLineFinish st1 []
    else
      match st1.inputScript, st1.inputLines with
      | sline :: srest, tline :: trest =>
        readLineFinish
          { st1 with
            inputScript := srest
            allOutputBuffer := st1.allOutputBuffer ++ sline ++ ['\n']
            transcript := st1.transcript ++ sline ++ ['\n']
            inputLines := trest }
          tline
      | sline :: srest, [] =>
        readLineFinish
          { st1 with
            inputScript := srest
            allOutputBuffer := st1.allOutputBuffer ++ sline ++ ['\n']
            transcript := st1.transcript ++ sline ++ ['\n'] }
          sline
      | [], tline :: trest =>
        readLineFinish { st1 with inputLines := trest } tline
      | [], [] => (none, st1)

/-- `GConsoleWindow::shutdown` (lines 1322-1332): the flag is set, the text
area becomes read-only and the completion marker is appended to the title
unless already present. -/
def shutdown (st : ConsoleState) : ConsoleState :=
  let st1 := { st with shutdown := true, textAreaEditable := false }
  if containsSub PROGRAM_COMPLETED_TITLE_SUFFIX st1.title then st1
  else { st1 with title := st1.title ++ PROGRAM_COMPLETED_TITLE_SUFFIX }

/-- `GConsoleWindow::setClearEnabled` (lines 1147-1152). -/
def setClearEnabled (st : ConsoleState) (b : Bool) : ConsoleState :=
  if st.locked || st.shutdown then st else { st with clearEnabled := b }

/-- `GConsoleWindow::setEcho` (lines 1169-1174). -/
def setEcho (st : ConsoleState) (b : Bool) : ConsoleState :=
  if st.locked || st.shutdown then st else { st with echo := b }

/-- `GConsoleWindow::setLocked` (lines 1198-1200). -/
def setLocked (st : ConsoleState) (b : Bool) : ConsoleState :=
  { st with locked := b }

end GConsoleWindow

/-- One public operation on the console, for stating properties of every
reachable sequence of operations. -/
inductive ConsoleOp where
  | print (s : List Char) (isStdErr : Bool)
  | println (s : List Char) (isStdErr : Bool)
  | clearConsole
  | loadInputScript (lines : List (List Char))
  | processEof
  | processUserInputEnterKey
  | processUserInputKey (key : Char)
  | processBackspace (isBackspace : Bool)
  | setUserInput (s : List Char)
  | processCommandHistory (delta : Int)
  | readLine
  | shutdown
  | setClearEnabled (b : Bool)
  | setEcho (b : Bool)
  | setLocked (b : Bool)
deriving DecidableEq

/-- The state transformer of one operation (for `readLine`, its effect on the
state). -/
def applyOp (op : ConsoleOp) (st : ConsoleState) : ConsoleState :=
  match op with
  | .print s isStdErr => GConsoleWindow.print st s isStdErr
  | .println s isStdErr => GConsoleWindow.println st s isStdErr
  | .clearConsole => GConsoleWindow.clearConsole st
  | .loadInputScript lines => GConsoleWindow.loadInputScript st lines
  | .processEof => GConsoleWindow.processEof st
  | .processUserInputEnterKey => GConsoleWindow.processUserInputEnterKey st
  | .processUserInputKey key => GConsoleWindow.processUserInputKey st key
  | .processBackspace b => GConsoleWindow.processBackspace st b
  | .setUserInput s => GConsoleWindow.setUserInput st s
  | .processCommandHistory delta => GConsoleWindow.processCommandHistory st delta
  | .readLine => (GConsoleWindow.readLine st).2
  | .shutdown => GConsoleWindow.shutdown st
  | .setClearEnabled b => GConsoleWindow.setClearEnabled st b
  | .setEcho b => GConsoleWindow.setEcho st b
  | .setLocked b => GConsoleWindow.setLocked st b

/-- Apply a sequence of operations from left to right. -/
def applyOps (ops : List ConsoleOp) (st : ConsoleState) : ConsoleState :=
  ops.foldl (fun s op => applyOp op s) st

/-- Apply a serialized sequence of `print` calls (text, isStdErr). -/
def applyPrints (l : List (List Char × Bool)) (st : ConsoleState) : ConsoleState :=
  l.foldl (fun s e => GConsoleWindow.print s e.1 e.2) st

/-- `l` is an interleaving, at call granularity, of the per-thread call
sequences `tss`: each step removes the front call of one thread. -/
inductive IsInterleavingOf :
    List (List (List Char × Bool)) → List (List Char × Bool) → Prop where
  | done : ∀ tss, (∀ t ∈ tss, t = []) → IsInterleavingOf tss []
  | step : ∀ (tss : List (List (List Char × Bool))) (i : Nat)
      (e : List Char × Bool) (t : List (List Char × Bool))
      (l : List (List Char × Bool)),
      tss[i]? = some (e :: t) →
      IsInterleavingOf (tss.set i t) l →
      IsInterleavingOf tss (e :: l)

/-- The concatenation of the normalized texts of a serialized sequence of
`print` calls. -/
def normConcat : List (List Char × Bool) → List Char
  | [] => []
  | e :: rest => specNormalizeLineEndings e.1 ++ normConcat rest

/-- The total length of the normalized texts of a serialized sequence of
`print` calls. -/
def normLenSum : List (List Char × Bool) → Nat
  | [] => 0
  | e :: rest => (specNormalizeLineEndings e.1).length + normLenSum rest

theorem replaceAllFuel_nil (pat rep : List Char) (fuel : Nat) :
    replaceAllFuel pat rep fuel [] = [] := by
  cases fuel <;> rfl

theorem crlf_isPrefixOf (c : Char) (rest : List Char) :
    (['\r', '\n'].isPrefixOf (c :: rest) = true)
      ↔ c = '\r' ∧ ∃ r, rest = '\n' :: r := by
  cases rest with
  | nil => simp [List.isPrefixOf]
  | cons d r =>
    simp only [List.isPrefixOf, Bool.and_eq_true, beq_iff_eq]
    constructor
    · rintro ⟨h1, h2, -⟩
      subst h1
      subst h2
      exact ⟨rfl, r, rfl⟩
    · rintro ⟨h1, r', hr⟩
      subst h1
      cases hr
      exact ⟨rfl, rfl, trivial⟩

theorem replaceAllFuel_crlf (fuel : Nat) :
    ∀ s : List Char, s.length ≤ fuel →
      replaceAllFuel ['\r', '\n'] ['\n'] fuel s = collapseCRLF s := by
  induction fuel with
  | zero =>
    intro s hs
    have : s = [] := List.length_eq_zero.mp (Nat.le_zero.mp hs)
    subst this
    rfl
  | succ fuel ih =>
    intro s hs
    match s with
    | [] => rfl
    | [c] =>
      have hpre : List.isPrefixOf ['\r', '\n'] [c] = false := by
        simp [List.isPrefixOf]
      simp [replaceAllFuel, hpre, collapseCRLF, replaceAllFuel_nil]
    | c :: d :: rest =>
      by_cases h : c = '\r' ∧ d = '\n'
      · obtain ⟨hc, hd⟩ := h
        subst hc
        subst hd
        have hpre : List.isPrefixOf ['\r', '\n'] ('\r' :: '\n' :: rest) = true := by
          simp [List.isPrefixOf]
        have hlen : rest.length ≤ fuel := by
          simp only [List.length_cons] at hs
          omega
        simp [replaceAllFuel, hpre, collapseCRLF, ih rest hlen]
      · have hpre : List.isPrefixOf ['\r', '\n'] (c :: d :: rest) = false := by
          rw [Bool.eq_false_iff]
          intro ht
          rcases (crlf_isPrefixOf c (d :: rest)).mp ht with ⟨hc, r, hr⟩
          cases hr
          exact h ⟨hc, rfl⟩
        have hlen : (d :: rest).length ≤ fuel := by
          simp only [List.length_cons] at hs ⊢
          omega
        simp [replaceAllFuel, hpre, collapseCRLF, h, ih (d :: rest) hlen]

theorem replaceAllFuel_cr (fuel : Nat) :
    ∀ s : List Char, s.length ≤ fuel →
      replaceAllFuel ['\r'] ['\n'] fuel s = s.map replCR := by
  induction fuel with
  | zero =>
    intro s hs
    have : s = [] := List.length_eq_zero.mp (Nat.le_zero.mp hs)
    subst this
    rfl
  | succ fuel ih =>
    intro s hs
    match s with
    | [] => rfl
    | c :: rest =>
      have hlen : rest.length ≤ fuel := by
        simp only [List.length_cons] at hs
        omega
      by_cases hc : c = '\r'
      · subst hc
        have hpre : List.isPrefixOf ['\r'] ('\r' :: rest) = true := by
          simp [List.isPrefixOf]
        simp [replaceAllFuel, hpre, replCR, ih rest hlen]
      · have hpre : List.isPrefixOf ['\r'] (c :: rest) = false := by
          simp [List.isPrefixOf]
          exact fun h => absurd h.symm hc
        simp [replaceAllFuel, hpre, replCR, hc, ih rest hlen]

theorem map_replCR_collapseCRLF :
    ∀ s : List Char, (collapseCRLF s).map replCR = specNormalizeLineEndings s := by
  intro s
  induction s using collapseCRLF.induct with
  | case1 => rfl
  | case2 c => simp [collapseCRLF, specNormalizeLineEndings]
  | case3 c d rest h ih =>
    obtain ⟨hc, hd⟩ := h
    subst hc
    subst hd
    simp [collapseCRLF, specNormalizeLineEndings, ih, replCR]
  | case4 c d rest h ih =>
    simp [collapseCRLF, specNormalizeLineEndings, h, ih]

theorem normalizeOutput_eq_spec (s : List Char) :
    normalizeOutput s = specNormalizeLineEndings s := by
  unfold normalizeOutput replaceAll
  simp only [List.isEmpty_cons, Bool.false_eq_true, if_false]
  rw [replaceAllFuel_crlf s.length s le_rfl,
      replaceAllFuel_cr (collapseCRLF s).length (collapseCRLF s) le_rfl]
  exact map_replCR_collapseCRLF s

open GConsoleWindow

theorem print_shape (st : ConsoleState) (s : List Char) (b : Bool) :
    ∃ log tr so se cur, print st s b =
      { st with allOutputBuffer := log, transcript := tr,
                stdoutText := so, stderrText := se, cursorOffset := cur } := by
  unfold print
  split
  · exact ⟨_, _, _, _, _, rfl⟩
  · dsimp only
    split
    · split
      · exact ⟨_, _, _, _, _, rfl⟩
      · exact ⟨_, _, _, _, _, rfl⟩
    · exact ⟨_, _, _, _, _, rfl⟩

theorem println_shape (st : ConsoleState) (s : List Char) (b : Bool) :
    ∃ log tr so se cur, println st s b =
      { st with allOutputBuffer := log, transcript := tr,
                stdoutText := so, stderrText := se, cursorOffset := cur } := by
  unfold println
  exact print_shape st (s ++ ['\n']) b

theorem clearConsole_shape (st : ConsoleState) :
    ∃ log tr so se cur, clearConsole st =
      { st with allOutputBuffer := log, transcript := tr,
                stdoutText := so, stderrText := se, cursorOffset := cur } := by
  unfold clearConsole
  split
  · exact ⟨_, _, _, _, _, rfl⟩
  · split
    · exact ⟨_, _, _, _, _, rfl⟩
    · exact println_shape st CONSOLE_CLEARED_TEXT false

theorem key_shape (st : ConsoleState) (c : Char) :
    ∃ buf cur, processUserInputKey st c =
      { st with inputBuffer := buf, cursorOffset := cur } := by
  unfold processUserInputKey
  dsimp only
  repeat' split
  all_goals exact ⟨_, _, rfl⟩

theorem foldl_key_shape (s : List Char) :
    ∀ st : ConsoleState, ∃ buf cur,
      s.foldl processUserInputKey st =
        { st with inputBuffer := buf, cursorOffset := cur } := by
  induction s with
  | nil => exact fun st => ⟨_, _, rfl⟩
  | cons c s ih =>
    intro st
    obtain ⟨b1, k1, h1⟩ := key_shape st c
    obtain ⟨b2, k2, h2⟩ := ih (processUserInputKey st c)
    refine ⟨b2, k2, ?_⟩
    rw [List.foldl_cons, h2, h1]

theorem setUserInput_shape (st : ConsoleState) (s : List Char) :
    ∃ buf cur, setUserInput st s =
      { st with inputBuffer := buf, cursorOffset := cur } := by
  unfold setUserInput
  dsimp only
  split
  · obtain ⟨b, k, h⟩ := foldl_key_shape s { st with inputBuffer := [] }
    exact ⟨b, k, by rw [h]⟩
  · obtain ⟨b, k, h⟩ := foldl_key_shape s { st with inputBuffer := [], cursorOffset := 0 }
    exact ⟨b, k, by rw [h]⟩

theorem setUserInput_update_idx (st : ConsoleState) (i : Int) (s : List Char) :
    ∃ buf cur, setUserInput { st with commandHistoryIndex := i } s =
      { st with inputBuffer := buf, cursorOffset := cur,
                commandHistoryIndex := i } := by
  obtain ⟨b, k, h⟩ := setUserInput_shape { st with commandHistoryIndex := i } s
  exact ⟨b, k, by rw [h]⟩

theorem history_shape (st : ConsoleState) (delta : Int) :
    ∃ buf cur idx, processCommandHistory st delta =
      { st with inputBuffer := buf, cursorOffset := cur,
                commandHistoryIndex := idx } := by
  unfold processCommandHistory
  dsimp only
  obtain ⟨b, k, h⟩ := setUserInput_update_idx st (min (max (-1) (st.commandHistoryIndex + delta)) (st.inputCommandHistory.length : Int)) _
  rw [h]
  exact ⟨b, k, _, rfl⟩

theorem backspace_shape (st : ConsoleState) (b : Bool) :
    ∃ buf cur, processBackspace st b =
      { st with inputBuffer := buf, cursorOffset := cur } := by
  unfold processBackspace
  dsimp only
  repeat' split
  all_goals exact ⟨_, _, rfl⟩

theorem enter_shape (st : ConsoleState) :
    ∃ il hist idx log buf tr cur, processUserInputEnterKey st =
      { st with inputLines := il, inputCommandHistory := hist,
                commandHistoryIndex := idx, allOutputBuffer := log,
                inputBuffer := buf, transcript := tr, cursorOffset := cur } := by
  unfold processUserInputEnterKey
  split
  · exact ⟨_, _, _, _, _, _, _, rfl⟩
  · exact ⟨_, _, _, _, _, _, _, rfl⟩

theorem readLine_snd_shape (st : ConsoleState) :
    ∃ pa cur sc il log tr so, (readLine st).2 =
      { st with promptActive := pa, cursorOffset := cur, inputScript := sc,
                inputLines := il, allOutputBuffer := log, transcript := tr,
                stdoutText := so } := by
  unfold readLine readLineFinish
  dsimp only
  repeat' split
  all_goals exact ⟨_, _, _, _, _, _, _, rfl⟩

theorem shutdown_shape (st : ConsoleState) :
    ∃ ttl, GConsoleWindow.shutdown st =
      { st with shutdown := true, textAreaEditable := false, title := ttl } := by
  unfold GConsoleWindow.shutdown
  dsimp only
  by_cases h : containsSub PROGRAM_COMPLETED_TITLE_SUFFIX st.title = true
  · rw [if_pos h]
    exact ⟨_, rfl⟩
  · rw [if_neg h]
    exact ⟨_, rfl⟩

theorem applyOps_cons (op : ConsoleOp) (ops : List ConsoleOp) (st : ConsoleState) :
    applyOps (op :: ops) st = applyOps ops (applyOp op st) := rfl

theorem applyOp_shutdown_mono (op : ConsoleOp) (st : ConsoleState)
    (h : st.shutdown = true) : (applyOp op st).shutdown = true := by
  cases op with
  | print s b =>
    obtain ⟨l, t, o, e, c, hs⟩ := print_shape st s b
    simp [applyOp, hs, h]
  | println s b =>
    obtain ⟨l, t, o, e, c, hs⟩ := println_shape st s b
    simp [applyOp, hs, h]
  | clearConsole =>
    obtain ⟨l, t, o, e, c, hs⟩ := clearConsole_shape st
    simp [applyOp, hs, h]
  | loadInputScript lines => simp [applyOp, GConsoleWindow.loadInputScript, h]
  | processEof =>
    simp only [applyOp]
    unfold GConsoleWindow.processEof
    split <;> simp [h]
  | processUserInputEnterKey =>
    obtain ⟨a1, a2, a3, a4, a5, a6, a7, hs⟩ := enter_shape st
    simp [applyOp, hs, h]
  | processUserInputKey key =>
    obtain ⟨b1, k1, hs⟩ := key_shape st key
    simp [applyOp, hs, h]
  | processBackspace b =>
    obtain ⟨b1, k1, hs⟩ := backspace_shape st b
    simp [applyOp, hs, h]
  | setUserInput s =>
    obtain ⟨b1, k1, hs⟩ := setUserInput_shape st s
    simp [applyOp, hs, h]
  | processCommandHistory d =>
    obtain ⟨b1, k1, i1, hs⟩ := history_shape st d
    simp [applyOp, hs, h]
  | readLine =>
    obtain ⟨a1, a2, a3, a4, a5, a6, a7, hs⟩ := readLine_snd_shape st
    simp [applyOp, hs, h]
  | shutdown =>
    obtain ⟨t1, hs⟩ := shutdown_shape st
    simp [applyOp, hs]
  | setClearEnabled b =>
    simp only [applyOp]
    unfold GConsoleWindow.setClearEnabled
    split <;> simp [h]
  | setEcho b =>
    simp only [applyOp]
    unfold GConsoleWindow.setEcho
    split <;> simp [h]
  | setLocked b => simp [applyOp, GConsoleWindow.setLocked, h]

theorem applyOp_eof_mono (op : ConsoleOp) (st : ConsoleState)
    (h : st.eofFlag = true) : (applyOp op st).eofFlag = true := by
  cases op with
  | print s b =>
    obtain ⟨l, t, o, e, c, hs⟩ := print_shape st s b
    simp [applyOp, hs, h]
  | println s b =>
    obtain ⟨l, t, o, e, c, hs⟩ := println_shape st s b
    simp [applyOp, hs, h]
  | clearConsole =>
    obtain ⟨l, t, o, e, c, hs⟩ := clearConsole_shape st
    simp [applyOp, hs, h]
  | loadInputScript lines => simp [applyOp, GConsoleWindow.loadInputScript, h]
  | processEof =>
    simp only [applyOp]
    unfold GConsoleWindow.processEof
    split <;> simp [h]
  | processUserInputEnterKey =>
    obtain ⟨a1, a2, a3, a4, a5, a6, a7, hs⟩ := enter_shape st
    simp [applyOp, hs, h]
  | processUserInputKey key =>
    obtain ⟨b1, k1, hs⟩ := key_shape st key
    simp [applyOp, hs, h]
  | processBackspace b =>
    obtain ⟨b1, k1, hs⟩ := backspace_shape st b
    simp [applyOp, hs, h]
  | setUserInput s =>
    obtain ⟨b1, k1, hs⟩ := setUserInput_shape st s
    simp [applyOp, hs, h]
  | processCommandHistory d =>
    obtain ⟨b1, k1, i1, hs⟩ := history_shape st d
    simp [applyOp, hs, h]
  | readLine =>
    obtain ⟨a1, a2, a3, a4, a5, a6, a7, hs⟩ := readLine_snd_shape st
    simp [applyOp, hs, h]
  | shutdown =>
    obtain ⟨t1, hs⟩ := shutdown_shape st
    simp [applyOp, hs, h]
  | setClearEnabled b =>
    simp only [applyOp]
    unfold GConsoleWindow.setClearEnabled
    split <;> simp [h]
  | setEcho b =>
    simp only [applyOp]
    unfold GConsoleWindow.setEcho
    split <;> simp [h]
  | setLocked b => simp [applyOp, GConsoleWindow.setLocked, h]

theorem applyOp_stable (op : ConsoleOp) (st : ConsoleState)
    (hop : op ≠ ConsoleOp.shutdown) :
    (applyOp op st).title = st.title ∧ (applyOp op st).shutdown = st.shutdown := by
  cases op with
  | print s b =>
    obtain ⟨l, t, o, e, c, hs⟩ := print_shape st s b
    simp [applyOp, hs]
  | println s b =>
    obtain ⟨l, t, o, e, c, hs⟩ := println_shape st s b
    simp [applyOp, hs]
  | clearConsole =>
    obtain ⟨l, t, o, e, c, hs⟩ := clearConsole_shape st
    simp [applyOp, hs]
  | loadInputScript lines => simp [applyOp, GConsoleWindow.loadInputScript]
  | processEof =>
    simp only [applyOp]
    unfold GConsoleWindow.processEof
    split <;> simp
  | processUserInputEnterKey =>
    obtain ⟨a1, a2, a3, a4, a5, a6, a7, hs⟩ := enter_shape st
    simp [applyOp, hs]
  | processUserInputKey key =>
    obtain ⟨b1, k1, hs⟩ := key_shape st key
    simp [applyOp, hs]
  | processBackspace b =>
    obtain ⟨b1, k1, hs⟩ := backspace_shape st b
    simp [applyOp, hs]
  | setUserInput s =>
    obtain ⟨b1, k1, hs⟩ := setUserInput_shape st s
    simp [applyOp, hs]
  | processCommandHistory d =>
    obtain ⟨b1, k1, i1, hs⟩ := history_shape st d
    simp [applyOp, hs]
  | readLine =>
    obtain ⟨a1, a2, a3, a4, a5, a6, a7, hs⟩ := readLine_snd_shape st
    simp [applyOp, hs]
  | shutdown => exact absurd rfl hop
  | setClearEnabled b =>
    simp only [applyOp]
    unfold GConsoleWindow.setClearEnabled
    split <;> simp
  | setEcho b =>
    simp only [applyOp]
    unfold GConsoleWindow.setEcho
    split <;> simp
  | setLocked b => simp [applyOp, GConsoleWindow.setLocked]

theorem applyOps_shutdown_mono (ops : List ConsoleOp) :
    ∀ st : ConsoleState, st.shutdown = true → (applyOps ops st).shutdown = true := by
  induction ops with
  | nil => exact fun st h => h
  | cons op rest ih =>
    intro st h
    rw [applyOps_cons]
    exact ih _ (applyOp_shutdown_mono op st h)

theorem applyOps_eof_mono (ops : List ConsoleOp) :
    ∀ st : ConsoleState, st.eofFlag = true → (applyOps ops st).eofFlag = true := by
  induction ops with
  | nil => exact fun st h => h
  | cons op rest ih =>
    intro st h
    rw [applyOps_cons]
    exact ih _ (applyOp_eof_mono op st h)

theorem shutdown_sets_flag (st : ConsoleState) :
    (applyOp ConsoleOp.shutdown st).shutdown = true := by
  obtain ⟨t1, hs⟩ := shutdown_shape st
  simp [applyOp, hs]

theorem titleInv_step (op : ConsoleOp) (st : ConsoleState)
    (h1 : st.title = DEFAULT_WINDOW_TITLE ∨
      st.title = DEFAULT_WINDOW_TITLE ++ PROGRAM_COMPLETED_TITLE_SUFFIX)
    (h2 : st.shutdown = true →
      st.title = DEFAULT_WINDOW_TITLE ++ PROGRAM_COMPLETED_TITLE_SUFFIX) :
    ((applyOp op st).title = DEFAULT_WINDOW_TITLE ∨
      (applyOp op st).title = DEFAULT_WINDOW_TITLE ++ PROGRAM_COMPLETED_TITLE_SUFFIX)
    ∧ ((applyOp op st).shutdown = true →
      (applyOp op st).title = DEFAULT_WINDOW_TITLE ++ PROGRAM_COMPLETED_TITLE_SUFFIX) := by
  by_cases hop : op = ConsoleOp.shutdown
  · subst hop
    rcases h1 with h | h
    · have hc : containsSub PROGRAM_COMPLETED_TITLE_SUFFIX DEFAULT_WINDOW_TITLE = false := by
        decide
      simp [applyOp, GConsoleWindow.shutdown, h, hc]
    · have hc : containsSub PROGRAM_COMPLETED_TITLE_SUFFIX
          (DEFAULT_WINDOW_TITLE ++ PROGRAM_COMPLETED_TITLE_SUFFIX) = true := by
        decide
      simp [applyOp, GConsoleWindow.shutdown, h, hc]
  · obtain ⟨ht, hsd⟩ := applyOp_stable op st hop
    rw [ht, hsd]
    exact ⟨h1, h2⟩

theorem titleInv_ops (ops : List ConsoleOp) :
    ∀ st : ConsoleState,
      (st.title = DEFAULT_WINDOW_TITLE ∨
        st.title = DEFAULT_WINDOW_TITLE ++ PROGRAM_COMPLETED_TITLE_SUFFIX) →
      (st.shutdown = true →
        st.title = DEFAULT_WINDOW_TITLE ++ PROGRAM_COMPLETED_TITLE_SUFFIX) →
      ((applyOps ops st).title = DEFAULT_WINDOW_TITLE ∨
        (applyOps ops st).title = DEFAULT_WINDOW_TITLE ++ PROGRAM_COMPLETED_TITLE_SUFFIX)
      ∧ ((applyOps ops st).shutdown = true →
        (applyOps ops st).title = DEFAULT_WINDOW_TITLE ++ PROGRAM_COMPLETED_TITLE_SUFFIX) := by
  induction ops with
  | nil => exact fun st h1 h2 => ⟨h1, h2⟩
  | cons op rest ih =>
    intro st h1 h2
    rw [applyOps_cons]
    obtain ⟨g1, g2⟩ := titleInv_step op st h1 h2
    exact ih _ g1 g2

theorem applyOps_shutdown_of_mem (ops : List ConsoleOp) :
    ∀ st : ConsoleState, ConsoleOp.shutdown ∈ ops →
      (applyOps ops st).shutdown = true := by
  induction ops with
  | nil => intro st h; exact absurd h (List.not_mem_nil _)
  | cons op rest ih =>
    intro st hmem
    rw [applyOps_cons]
    by_cases hop : op = ConsoleOp.shutdown
    · subst hop
      exact applyOps_shutdown_mono rest _ (shutdown_sets_flag st)
    · have hrest : ConsoleOp.shutdown ∈ rest := by
        rcases List.mem_cons.mp hmem with h | h
        · exact absurd h.symm hop
        · exact h
      exact ih _ hrest

theorem processUserInputKey_step (st : ConsoleState) (c : Char)
    (h : st.shutdown = false)
    (hq : st.inputBuffer = [] ∨ st.cursorOffset = (st.inputBuffer.length : Int)) :
    (processUserInputKey st c).inputBuffer
        = st.inputBuffer ++ (if (c != Char.ofNat 0) && isprint c then [c] else [])
    ∧ ((processUserInputKey st c).inputBuffer = [] ∨
        (processUserInputKey st c).cursorOffset
          = ((processUserInputKey st c).inputBuffer.length : Int)) := by
  unfold processUserInputKey
  rw [h]
  simp only [Bool.false_eq_true, if_false]
  by_cases hacc : ((c != Char.ofNat 0) && isprint c) = true
  · rw [if_pos hacc, if_pos hacc]
    rcases hq with hbuf | hcur
    · have hrich : (ALLOW_RICH_INPUT_EDITING && isCursorInUserInputArea st
          && !st.inputBuffer.isEmpty) = false := by
        simp [hbuf]
      rw [if_neg (by simp [hrich])]
      refine ⟨rfl, Or.inr ?_⟩
      simp [hbuf]
    · by_cases hrich : (ALLOW_RICH_INPUT_EDITING && isCursorInUserInputArea st
          && !st.inputBuffer.isEmpty) = true
      · rw [if_pos hrich]
        dsimp only
        have htn : st.cursorOffset.toNat = st.inputBuffer.length := by
          rw [hcur, Int.toNat_natCast]
        rw [htn, List.insertIdx_length_self]
        refine ⟨rfl, Or.inr ?_⟩
        simp
      · rw [if_neg hrich]
        refine ⟨rfl, Or.inr ?_⟩
        simp
  · rw [if_neg hacc, if_neg hacc]
    exact ⟨by simp, hq⟩

theorem foldl_key_buffer (s : List Char) :
    ∀ st : ConsoleState, st.shutdown = false →
      (st.inputBuffer = [] ∨ st.cursorOffset = (st.inputBuffer.length : Int)) →
      (s.foldl processUserInputKey st).inputBuffer
        = st.inputBuffer ++ s.filter (fun c => (c != Char.ofNat 0) && isprint c) := by
  induction s with
  | nil => intro st _ _; simp
  | cons c s ih =>
    intro st h hq
    obtain ⟨hstep, hq'⟩ := processUserInputKey_step st c h hq
    have h' : (processUserInputKey st c).shutdown = false := by
      obtain ⟨b1, k1, hs⟩ := key_shape st c
      rw [hs]
      exact h
    rw [List.foldl_cons, ih (processUserInputKey st c) h' hq', hstep]
    by_cases hacc : ((c != Char.ofNat 0) && isprint c) = true
    · simp [List.filter_cons, hacc]
    · simp only [Bool.not_eq_true] at hacc
      simp [List.filter_cons, hacc]

theorem setUserInput_inputBuffer (st : ConsoleState) (s : List Char)
    (h : st.shutdown = false) :
    (setUserInput st s).inputBuffer
      = s.filter (fun c => (c != Char.ofNat 0) && isprint c) := by
  unfold setUserInput
  dsimp only
  split
  · rw [foldl_key_buffer s { st with inputBuffer := [] } h (Or.inl rfl)]
    simp
  · rw [foldl_key_buffer s { st with inputBuffer := [], cursorOffset := 0 } h (Or.inl rfl)]
    simp

theorem applyPrints_cons (e : List Char × Bool) (l : List (List Char × Bool))
    (st : ConsoleState) :
    applyPrints (e :: l) st = applyPrints l (print st e.1 e.2) := rfl

theorem print_outputs (st : ConsoleState) (s : List Char) (isStdErr : Bool)
    (h : st.shutdown = false) :
    (print st s isStdErr).allOutputBuffer
        = st.allOutputBuffer ++ specNormalizeLineEndings s
    ∧ (print st s isStdErr).transcript
        = st.transcript ++ specNormalizeLineEndings s
    ∧ (print st s isStdErr).stdoutText
        = st.stdoutText ++ (if st.echo && !isStdErr then s else [])
    ∧ (print st s isStdErr).stderrText
        = st.stderrText ++ (if st.echo && isStdErr then s else [])
    ∧ (print st s isStdErr).shutdown = false := by
  unfold print
  rw [h]
  simp only [Bool.false_eq_true, if_false]
  rw [normalizeOutput_eq_spec]
  by_cases he : st.echo = true
  · by_cases hb : isStdErr = true
    · simp [he, hb, h]
    · simp only [Bool.not_eq_true] at hb
      simp [he, hb, h]
  · simp only [Bool.not_eq_true] at he
    simp [he, h]

theorem applyPrints_log (l : List (List Char × Bool)) :
    ∀ st : ConsoleState, st.shutdown = false →
      (applyPrints l st).allOutputBuffer = st.allOutputBuffer ++ normConcat l
      ∧ (applyPrints l st).shutdown = false := by
  induction l with
  | nil =>
    intro st h
    exact ⟨by simp [applyPrints, normConcat], h⟩
  | cons e rest ih =>
    intro st h
    obtain ⟨hlog, -, -, -, hsd⟩ := print_outputs st e.1 e.2 h
    obtain ⟨ih1, ih2⟩ := ih (print st e.1 e.2) hsd
    refine ⟨?_, by rw [applyPrints_cons]; exact ih2⟩
    rw [applyPrints_cons, ih1, hlog, normConcat]
    simp [List.append_assoc]

theorem normConcat_length (l : List (List Char × Bool)) :
    (normConcat l).length = normLenSum l := by
  induction l with
  | nil => rfl
  | cons e rest ih => simp [normConcat, normLenSum, ih]

/-- C7: for every string `s` passed to `print(s, isError)` before shutdown,
the text appended to the OutputLog and to the transcript is `s` with every
occurrence of `"\r\n"` collapsed to `"\n"` and every remaining `"\r"`
replaced by `"\n"` (and this single-pass description coincides with the
code's two `stringReplaceInPlace` passes), while the raw echo to the process
standard streams (when echo is enabled) uses the untransformed `s`. -/
theorem c7_print_normalizes_display_raw_echo (st : ConsoleState) (s : List Char)
    (isStdErr : Bool) (h : st.shutdown = false) :
    (print st s isStdErr).allOutputBuffer
        = st.allOutputBuffer ++ specNormalizeLineEndings s
    ∧ (print st s isStdErr).transcript
        = st.transcript ++ specNormalizeLineEndings s
    ∧ specNormalizeLineEndings s
        = replaceAll ['\r'] ['\n'] (replaceAll ['\r', '\n'] ['\n'] s)
    ∧ (st.echo = true → isStdErr = false →
        (print st s isStdErr).stdoutText = st.stdoutText ++ s
        ∧ (print st s isStdErr).stderrText = st.stderrText)
    ∧ (st.echo = true → isStdErr = true →
        (print st s isStdErr).stderrText = st.stderrText ++ s
        ∧ (print st s isStdErr).stdoutText = st.stdoutText)
    ∧ (st.echo = false →
        (print st s isStdErr).stdoutText = st.stdoutText
        ∧ (print st s isStdErr).stderrText = st.stderrText) := by
  obtain ⟨h1, h2, h3, h4, -⟩ := print_outputs st s isStdErr h
  refine ⟨h1, h2, (normalizeOutput_eq_spec s).symm, ?_, ?_, ?_⟩
  · intro he hb
    subst hb
    rw [he] at h3 h4
    simp at h3 h4
    exact ⟨h3, h4⟩
  · intro he hb
    subst hb
    rw [he] at h3 h4
    simp at h3 h4
    exact ⟨h4, h3⟩
  · intro he
    rw [he] at h3 h4
    simp at h3 h4
    exact ⟨h3, h4⟩

/-- C7 witness: the theorem applied at a concrete state and text. -/
theorem c7_print_normalizes_display_raw_echo_witness :
    (print initialConsoleState "a\r\nb\rc".data false).allOutputBuffer
        = initialConsoleState.allOutputBuffer
            ++ specNormalizeLineEndings "a\r\nb\rc".data
    ∧ specNormalizeLineEndings "a\r\nb\rc".data = "a\nb\nc".data :=
  ⟨(c7_print_normalizes_display_raw_echo initialConsoleState "a\r\nb\rc".data
      false rfl).1, by decide⟩

/-- C4 counterexample: the claim's length equation fails as stated, because
`print` normalizes line endings before appending to the OutputLog: a single
`print("\r\n")` call from one thread appends one character, not two. -/
theorem c4_outputLog_length_cex :
    (applyPrints [("\r\n".data, false)] initialConsoleState).allOutputBuffer.length
      ≠ ("\r\n".data).length := by decide

/-- C4 (amended): for all sequences of `print(text, isError)` calls issued
from N concurrent threads, serialized in any interleaving at call granularity,
the OutputLog content is the concatenation of the calls' normalized texts in
serialization order — no call's text is split at the character level or
duplicated — and the OutputLog's length equals the sum of the lengths of the
printed inputs after line-ending normalization. -/
theorem c4_print_call_granularity_amended
    (tss : List (List (List Char × Bool))) (l : List (List Char × Bool))
    (st : ConsoleState) (_hint : IsInterleavingOf tss l)
    (h : st.shutdown = false) (hlog : st.allOutputBuffer = []) :
    (applyPrints l st).allOutputBuffer = normConcat l
    ∧ (applyPrints l st).allOutputBuffer.length = normLenSum l := by
  obtain ⟨h1, -⟩ := applyPrints_log l st h
  rw [h1, hlog]
  simp [normConcat_length]

/-- C4 witness: the amended theorem applied to a one-thread interleaving. -/
theorem c4_print_call_granularity_amended_witness :
    (applyPrints [("a\r\nb".data, false)] initialConsoleState).allOutputBuffer
        = normConcat [("a\r\nb".data, false)]
    ∧ (applyPrints [("a\r\nb".data, false)] initialConsoleState).allOutputBuffer.length
        = normLenSum [("a\r\nb".data, false)] :=
  c4_print_call_granularity_amended [[("a\r\nb".data, false)]]
    [("a\r\nb".data, false)] initialConsoleState
    (IsInterleavingOf.step [[("a\r\nb".data, false)]] 0 ("a\r\nb".data, false)
      [] [] rfl (IsInterleavingOf.done [[]] (by simp)))
    rfl rfl

/-- C2 counterexample: with clearing enabled (and not shut down),
`clearConsole` does NOT empty the OutputLog — `_allOutputBuffer` is left
untouched (only the graphical text surface is cleared), refuting the claim
that both the transcript and the OutputLog are emptied. -/
theorem c2_clearConsole_outputLog_cex :
    ({ initialConsoleState with allOutputBuffer := "x".data } : ConsoleState).clearEnabled = true
    ∧ ({ initialConsoleState with allOutputBuffer := "x".data } : ConsoleState).shutdown = false
    ∧ (clearConsole { initialConsoleState with allOutputBuffer := "x".data }).allOutputBuffer
        = "x".data
    ∧ "x".data ≠ ([] : List Char) := by
  decide

/-- C2 (amended): for every console state that is not shut down: calling
`clearConsole()` with clearing enabled empties the transcript but leaves the
OutputLog unchanged, the marker line going only to the plain non-graphical
standard output; calling `clearConsole()` with clearing disabled leaves the
OutputLog unchanged except for one appended "(console cleared)" marker line
and leaves the transcript unchanged except for that same marker line. -/
theorem c2_clearConsole_amended (st : ConsoleState) (h : st.shutdown = false) :
    (st.clearEnabled = true →
        (clearConsole st).transcript = []
        ∧ (clearConsole st).allOutputBuffer = st.allOutputBuffer
        ∧ (clearConsole st).stdoutText
            = st.stdoutText ++ CONSOLE_CLEARED_TEXT ++ ['\n'])
    ∧ (st.clearEnabled = false →
        (clearConsole st).allOutputBuffer
            = st.allOutputBuffer ++ CONSOLE_CLEARED_TEXT ++ ['\n']
        ∧ (clearConsole st).transcript
            = st.transcript ++ CONSOLE_CLEARED_TEXT ++ ['\n']) := by
  constructor
  · intro hce
    unfold clearConsole
    rw [h]
    simp only [Bool.false_eq_true, if_false]
    rw [hce]
    simp
  · intro hce
    unfold clearConsole
    rw [h, hce]
    simp only [Bool.false_eq_true, if_false]
    unfold println
    obtain ⟨h1, h2, -, -, -⟩ :=
      print_outputs st (CONSOLE_CLEARED_TEXT ++ ['\n']) false h
    rw [h1, h2]
    have hnorm : specNormalizeLineEndings (CONSOLE_CLEARED_TEXT ++ ['\n'])
        = CONSOLE_CLEARED_TEXT ++ ['\n'] := by decide
    rw [hnorm]
    simp [List.append_assoc]

/-- C2 witness: the amended theorem applied at concrete states, in both the
clearing-enabled and the clearing-disabled configuration. -/
theorem c2_clearConsole_amended_witness :
    ((clearConsole { initialConsoleState with allOutputBuffer := "x".data }).transcript = []
      ∧ (clearConsole { initialConsoleState with allOutputBuffer := "x".data }).allOutputBuffer
          = ({ initialConsoleState with allOutputBuffer := "x".data } : ConsoleState).allOutputBuffer)
    ∧ (clearConsole { initialConsoleState with clearEnabled := false }).allOutputBuffer
        = ({ initialConsoleState with clearEnabled := false } : ConsoleState).allOutputBuffer
            ++ CONSOLE_CLEARED_TEXT ++ ['\n'] :=
  ⟨⟨((c2_clearConsole_amended { initialConsoleState with allOutputBuffer := "x".data } rfl).1 rfl).1,
    ((c2_clearConsole_amended { initialConsoleState with allOutputBuffer := "x".data } rfl).1 rfl).2.1⟩,
   ((c2_clearConsole_amended { initialConsoleState with clearEnabled := false } rfl).2 rfl).1⟩

/-- C3: for every pending-buffer content, with the ScriptQueue and InputQueue
empty (and the console not shut down nor at end of file), submitting the
pending line followed by `readLine()` returns exactly the submitted text;
immediately after the submission, CommandHistory's last entry equals it, the
history cursor equals the history length, and the pending buffer is empty. -/
theorem c3_submit_then_readLine (st : ConsoleState)
    (hsd : st.shutdown = false) (heof : st.eofFlag = false)
    (hscript : st.inputScript = []) (hlines : st.inputLines = []) :
    (readLine (processUserInputEnterKey st)).1 = some st.inputBuffer
    ∧ (processUserInputEnterKey st).inputCommandHistory.getLast?
        = some st.inputBuffer
    ∧ (processUserInputEnterKey st).commandHistoryIndex
        = ((processUserInputEnterKey st).inputCommandHistory.length : Int)
    ∧ (processUserInputEnterKey st).inputBuffer = [] := by
  unfold processUserInputEnterKey
  rw [hsd]
  simp only [Bool.false_eq_true, if_false]
  refine ⟨?_, ?_, ?_, ?_⟩
  · unfold readLine readLineFinish
    simp [hsd, heof, hscript, hlines]
  · simp
  · simp
  · trivial

/-- C3 witness: the theorem applied at a concrete state. -/
theorem c3_submit_then_readLine_witness :
    (readLine (processUserInputEnterKey
        { initialConsoleState with inputBuffer := "hi".data })).1
      = some "hi".data
    ∧ (processUserInputEnterKey
        { initialConsoleState with inputBuffer := "hi".data }).inputCommandHistory.getLast?
      = some "hi".data :=
  ⟨(c3_submit_then_readLine { initialConsoleState with inputBuffer := "hi".data }
      rfl rfl rfl rfl).1,
   (c3_submit_then_readLine { initialConsoleState with inputBuffer := "hi".data }
      rfl rfl rfl rfl).2.1⟩

/-- C5: `processEof()` on an empty pending buffer sets the sticky end-of-input
flag; no operation ever clears it; any subsequent `readLine()` returns
immediately with the empty string.  On a non-empty pending buffer,
`processEof()` changes nothing, and with no line available (and no shutdown
or end of file) `readLine()` blocks (modelled as result `none`). -/
theorem c5_processEof_semantics :
    (∀ st : ConsoleState, st.inputBuffer = [] → (processEof st).eofFlag = true)
    ∧ (∀ st : ConsoleState, st.inputBuffer ≠ [] → processEof st = st)
    ∧ (∀ (op : ConsoleOp) (st : ConsoleState), st.eofFlag = true →
        (applyOp op st).eofFlag = true)
    ∧ (∀ st : ConsoleState, st.eofFlag = true → (readLine st).1 = some [])
    ∧ (∀ st : ConsoleState, st.shutdown = false → st.eofFlag = false →
        st.inputScript = [] → st.inputLines = [] → (readLine st).1 = none) := by
  refine ⟨?_, ?_, applyOp_eof_mono, ?_, ?_⟩
  · intro st h
    unfold processEof
    simp [h]
  · intro st h
    unfold processEof
    simp [h]
  · intro st h
    unfold readLine readLineFinish
    by_cases hs : st.shutdown = true
    · simp [hs]
    · simp only [Bool.not_eq_true] at hs
      simp [hs, h]
  · intro st h1 h2 h3 h4
    unfold readLine
    simp [h1, h2, h3, h4]

/-- C5 witness: the theorem's parts applied at concrete states. -/
theorem c5_processEof_semantics_witness :
    (processEof initialConsoleState).eofFlag = true
    ∧ processEof { initialConsoleState with inputBuffer := "x".data }
        = { initialConsoleState with inputBuffer := "x".data }
    ∧ (readLine { initialConsoleState with eofFlag := true }).1 = some []
    ∧ (readLine initialConsoleState).1 = none :=
  ⟨c5_processEof_semantics.1 initialConsoleState rfl,
   c5_processEof_semantics.2.1 { initialConsoleState with inputBuffer := "x".data }
     (by decide),
   c5_processEof_semantics.2.2.2.1 { initialConsoleState with eofFlag := true } rfl,
   c5_processEof_semantics.2.2.2.2 initialConsoleState rfl rfl rfl rfl⟩

/-- C1: the claim fails on the code, which loses a script line.  With script
lines `["1", "2"]` loaded and a typed line already queued in the InputQueue,
`readLine()` dequeues the script front line `"1"` and echoes it to the
transcript and OutputLog as if consumed, but then — because the second queue
check does not test whether a line was already read — also dequeues the typed
line and returns it instead: the call returns `"typed"`, not `"1"`, and `"1"`
is never delivered to any reader.  A second call then returns `"2"`, so the
two calls yield `"typed", "2"` rather than the claimed `"1", "2"`. -/
theorem c1_readLine_drops_script_line_bug :
    (let st : ConsoleState := { initialConsoleState with
        inputScript := ["1".data, "2".data]
        inputLines := ["typed".data] }
     (readLine st).1 = some "typed".data
     ∧ (readLine st).2.inputScript = ["2".data]
     ∧ (readLine st).2.inputLines = ([] : List (List Char))
     ∧ (readLine st).2.allOutputBuffer = "1\n".data
     ∧ (readLine (readLine st).2).1 = some "2".data) := by
  decide

/-- C6: for every CommandHistory and cursor index, `processCommandHistory
(delta)` (navigation) sets the index to `clamp(index + delta, -1, length)`;
if the new index is in `[0, length)` the entry at that index replaces the
pending buffer, and at either boundary the pending buffer is set to empty.
(The hypothesis that history entries consist of accepted — printable,
non-NUL — keys holds for every entry ever submitted, since the buffer is
only filled through `processUserInputKey`.) -/
theorem c6_history_navigation_clamp (st : ConsoleState) (delta : Int)
    (h : st.shutdown = false)
    (hpr : ∀ l ∈ st.inputCommandHistory, ∀ c ∈ l,
      ((c != Char.ofNat 0) && isprint c) = true) :
    (processCommandHistory st delta).commandHistoryIndex
        = min (max (-1) (st.commandHistoryIndex + delta))
            (st.inputCommandHistory.length : Int)
    ∧ (0 ≤ (processCommandHistory st delta).commandHistoryIndex →
        (processCommandHistory st delta).commandHistoryIndex
            < (st.inputCommandHistory.length : Int) →
        (processCommandHistory st delta).inputBuffer
          = st.inputCommandHistory.getD
              (processCommandHistory st delta).commandHistoryIndex.toNat [])
    ∧ ((processCommandHistory st delta).commandHistoryIndex = -1 ∨
        (processCommandHistory st delta).commandHistoryIndex
          = (st.inputCommandHistory.length : Int) →
        (processCommandHistory st delta).inputBuffer = []) := by
  have hun : processCommandHistory st delta =
      setUserInput
        { st with commandHistoryIndex :=
            (min (max (-1) (st.commandHistoryIndex + delta))
              (st.inputCommandHistory.length : Int)) }
        (if 0 ≤ min (max (-1) (st.commandHistoryIndex + delta))
              (st.inputCommandHistory.length : Int)
            ∧ min (max (-1) (st.commandHistoryIndex + delta))
                (st.inputCommandHistory.length : Int)
              < (st.inputCommandHistory.length : Int) then
          st.inputCommandHistory.getD
            (min (max (-1) (st.commandHistoryIndex + delta))
              (st.inputCommandHistory.length : Int)).toNat []
        else []) := rfl
  have hidx : (processCommandHistory st delta).commandHistoryIndex
      = min (max (-1) (st.commandHistoryIndex + delta))
          (st.inputCommandHistory.length : Int) := by
    rw [hun]
    obtain ⟨b, k, hs⟩ := setUserInput_shape _ _
    rw [hs]
  have hbuf : (processCommandHistory st delta).inputBuffer
      = (if 0 ≤ min (max (-1) (st.commandHistoryIndex + delta))
              (st.inputCommandHistory.length : Int)
            ∧ min (max (-1) (st.commandHistoryIndex + delta))
                (st.inputCommandHistory.length : Int)
              < (st.inputCommandHistory.length : Int) then
          st.inputCommandHistory.getD
            (min (max (-1) (st.commandHistoryIndex + delta))
              (st.inputCommandHistory.length : Int)).toNat []
        else []).filter (fun c => (c != Char.ofNat 0) && isprint c) := by
    rw [hun]
    exact setUserInput_inputBuffer _ _ h
  refine ⟨hidx, ?_, ?_⟩
  · intro h0 hlt
    rw [hidx] at h0 hlt
    rw [hbuf, hidx, if_pos ⟨h0, hlt⟩]
    have hmem : st.inputCommandHistory.getD
        (min (max (-1) (st.commandHistoryIndex + delta))
          (st.inputCommandHistory.length : Int)).toNat []
        ∈ st.inputCommandHistory := by
      have hlt' : (min (max (-1) (st.commandHistoryIndex + delta))
          (st.inputCommandHistory.length : Int)).toNat
          < st.inputCommandHistory.length := by omega
      rw [List.getD_eq_getElem _ _ hlt']
      exact List.getElem_mem hlt'
    exact List.filter_eq_self.mpr (fun c hc => hpr _ hmem c hc)
  · intro hb
    rw [hidx] at hb
    rw [hbuf]
    rcases hb with hb | hb
    · rw [if_neg (by omega)]
      rfl
    · rw [if_neg (by omega)]
      rfl

/-- C6 witness: the theorem applied after submitting `"a"` then `"b"`, plus
the concrete recall sequence: `navigate(-1)` recalls `"b"`, then `"a"`, then
the empty boundary, and stays there on a further `navigate(-1)`. -/
theorem c6_history_navigation_clamp_witness :
    (let S := processUserInputEnterKey (processUserInputKey
        (processUserInputEnterKey (processUserInputKey initialConsoleState 'a')) 'b')
     ((processCommandHistory S (-1)).commandHistoryIndex
        = min (max (-1) (S.commandHistoryIndex + (-1)))
            (S.inputCommandHistory.length : Int))
     ∧ (processCommandHistory S (-1)).inputBuffer = "b".data
     ∧ (processCommandHistory (processCommandHistory S (-1)) (-1)).inputBuffer
        = "a".data
     ∧ (processCommandHistory (processCommandHistory
          (processCommandHistory S (-1)) (-1)) (-1)).inputBuffer = []
     ∧ (processCommandHistory (processCommandHistory (processCommandHistory
          (processCommandHistory S (-1)) (-1)) (-1)) (-1)).inputBuffer = []) :=
  ⟨(c6_history_navigation_clamp _ (-1) (by decide) (by decide)).1,
   by decide, by decide, by decide, by decide⟩

/-- C8: Backspace with the edit cursor at index 0 of the user-input region
leaves the whole state (in particular the buffer) unchanged — no character
is removed and no out-of-range erase occurs — and inserting an accepted
(printable, non-NUL) character with the cursor beyond the current buffer
length clamps to appending the character at the end of the buffer. -/
theorem c8_backspace_at_zero_insert_clamp :
    (∀ st : ConsoleState, st.cursorOffset = 0 → processBackspace st true = st)
    ∧ (∀ (st : ConsoleState) (c : Char), st.shutdown = false →
        ((c != Char.ofNat 0) && isprint c) = true →
        (st.inputBuffer.length : Int) < st.cursorOffset →
        (processUserInputKey st c).inputBuffer = st.inputBuffer ++ [c]) := by
  constructor
  · intro st h0
    by_cases hg : (st.shutdown || !st.promptActive) = true
    · unfold processBackspace
      rw [if_pos hg]
    · by_cases hb : st.inputBuffer.isEmpty = true
      · unfold processBackspace
        rw [if_neg hg, if_pos hb]
      · have hlen : 0 < st.inputBuffer.length := by
          rcases hbuf : st.inputBuffer with _ | ⟨x, xs⟩
          · rw [hbuf] at hb
            simp at hb
          · simp
        unfold processBackspace
        rw [if_neg hg, if_neg hb]
        dsimp only
        rw [h0]
        rw [if_pos (by refine ⟨le_refl 0, ?_⟩; simp; omega)]
        rw [if_neg (by simp)]
  · intro st c h hacc hbeyond
    unfold processUserInputKey
    rw [h]
    simp only [Bool.false_eq_true, if_false]
    rw [if_pos hacc]
    have harea : isCursorInUserInputArea st = false := by
      unfold isCursorInUserInputArea
      simp [not_le.mpr hbeyond]
    rw [if_neg (by simp [harea])]

/-- C8 witness: the theorem's two parts applied at concrete states. -/
theorem c8_backspace_at_zero_insert_clamp_witness :
    processBackspace { initialConsoleState with
        inputBuffer := "ab".data, promptActive := true, cursorOffset := 0 } true
      = { initialConsoleState with
          inputBuffer := "ab".data, promptActive := true, cursorOffset := 0 }
    ∧ (processUserInputKey { initialConsoleState with
          inputBuffer := "ab".data, cursorOffset := 5 } 'z').inputBuffer
      = "ab".data ++ ['z'] :=
  ⟨c8_backspace_at_zero_insert_clamp.1 _ rfl,
   c8_backspace_at_zero_insert_clamp.2 { initialConsoleState with
      inputBuffer := "ab".data, cursorOffset := 5 } 'z' rfl (by decide) (by decide)⟩

/-- C9: the `shuttingDown` flag is monotonic — once set by `shutdown()` no
later operation ever makes it false — and the completion marker appended to
the window title on shutdown is idempotent: after any sequence of operations
from the initial state containing at least one `shutdown()` call, the marker
suffix occurs in the title exactly once, never twice. -/
theorem c9_shutdown_monotonic_marker_once :
    (∀ (ops : List ConsoleOp) (st : ConsoleState), st.shutdown = true →
        (applyOps ops st).shutdown = true)
    ∧ (∀ ops : List ConsoleOp, ConsoleOp.shutdown ∈ ops →
        countOcc PROGRAM_COMPLETED_TITLE_SUFFIX
          (applyOps ops initialConsoleState).title = 1) := by
  refine ⟨fun ops st h => applyOps_shutdown_mono ops st h, ?_⟩
  intro ops hmem
  have hinv := titleInv_ops ops initialConsoleState (Or.inl rfl) (by decide)
  have hflag := applyOps_shutdown_of_mem ops initialConsoleState hmem
  rw [hinv.2 hflag]
  decide

/-- C9 witness: the theorem applied to a concrete already-shut-down state and
to the one-operation sequence `[shutdown]`. -/
theorem c9_shutdown_monotonic_marker_once_witness :
    (applyOps [] { initialConsoleState with shutdown := true }).shutdown = true
    ∧ countOcc PROGRAM_COMPLETED_TITLE_SUFFIX
        (applyOps [ConsoleOp.shutdown] initialConsoleState).title = 1 :=
  ⟨c9_shutdown_monotonic_marker_once.1 [] { initialConsoleState with shutdown := true } rfl,
   c9_shutdown_monotonic_marker_once.2 [ConsoleOp.shutdown]
     (List.mem_cons_self _ _)⟩

/-- C10: `setUserInput(s)` called before shutdown leaves the pending input
buffer equal to the subsequence of accepted characters of `s` in their
original order: every non-printable character (and the NUL character) is
silently dropped, because replacement is routed character-by-character
through `processUserInputKey`, which only inserts printable non-NUL keys. -/
theorem c10_setUserInput_keeps_printable_subsequence
    (st : ConsoleState) (s : List Char) (h : st.shutdown = false) :
    (setUserInput st s).inputBuffer
      = s.filter (fun c => (c != Char.ofNat 0) && isprint c) :=
  setUserInput_inputBuffer st s h

/-- C10 witness: the theorem applied at a concrete state; a tab and a NUL
character are dropped, printable characters are kept in order. -/
theorem c10_setUserInput_keeps_printable_subsequence_witness :
    (setUserInput { initialConsoleState with inputBuffer := "old".data }
        ('a' :: '\t' :: Char.ofNat 0 :: 'b' :: [])).inputBuffer = "ab".data :=
  (c10_setUserInput_keeps_printable_subsequence
    { initialConsoleState with inputBuffer := "old".data }
    ('a' :: '\t' :: Char.ofNat 0 :: 'b' :: []) rfl).trans (by decide)
